import Mathlib

/-! Shallow embedding of the Vaisala WXT520 telemetry decoding core
(`chimera_vaisala/instruments/vaisala.py`) together with proofs about its
behaviour.

Strings are embedded as lists of characters.  The three regular expressions
of the source (`regex_header`, `regex_data`, `regex_eol`) are hand-compiled
into recursive matchers reproducing the Python `re` engine's leftmost-match,
greedy/non-greedy and backtracking semantics on these concrete patterns.
Machine floats are idealised as rationals (field parsing, unit scaling) and
as real numbers (the transcendental dew-point formula); `datetime.utcnow()`
is an effect and is modelled as an explicit clock input to `update_data`.
The record dict stored per message id holds the parsed two-character field
codes plus the key `obs_time` (a datetime, not a string); this heterogeneous
dict is modelled as a structure with a `fields` map and an `obs_time`
component, which is faithful because a two-character field code can never
collide with the eight-character key `obs_time`. -/

abbrev Chars := List Char

/-- The character class `[A-Z]` of `regex_data`, by ASCII codepoint. -/
def isUp (c : Char) : Bool := 65 ≤ c.toNat && c.toNat ≤ 90

/-- The character class `[a-z]` of `regex_data`, by ASCII codepoint. -/
def isLo (c : Char) : Bool := 97 ≤ c.toNat && c.toNat ≤ 122

/-- The character class `[0-9]` of `regex_header`, by ASCII codepoint. -/
def isDigitC (c : Char) : Bool := 48 ≤ c.toNat && c.toNat ≤ 57

/-- The alternation `(T|R)` of `regex_header`. -/
def isTR (c : Char) : Bool := c == 'T' || c == 'R'

/-- Association-list update with Python dict semantics: an existing key is
overwritten in place, a fresh key is appended at the end. -/
def dictInsert {α : Type} (l : List (Chars × α)) (k : Chars) (v : α) :
    List (Chars × α) :=
  match l with
  | [] => [(k, v)]
  | (k1, v1) :: t => if k1 = k then (k, v) :: t else (k1, v1) :: dictInsert t k v

/-- Association-list lookup (Python `d[k]`, `none` models the KeyError). -/
def dictLookup {α : Type} (l : List (Chars × α)) (k : Chars) : Option α :=
  match l with
  | [] => none
  | (k1, v1) :: t => if k1 = k then some v1 else dictLookup t k

/-- Build a Python dict from a list of key/value pairs in iteration order. -/
def dictify (l : List (Chars × Chars)) : List (Chars × Chars) :=
  l.foldl (fun d p => dictInsert d p.1 p.2) []

/-- Python `int` applied to a nonempty string of decimal digits. -/
def strToNat (s : Chars) : Nat := s.foldl (fun a c => 10 * a + (c.toNat - 48)) 0

/-- Decimal value of a digit string, as a rational. -/
def natVal (s : Chars) : ℚ := ((strToNat s : Nat) : ℚ)

/-- Unsigned part of CPython `float()` string conversion, restricted to the
fixed-point decimal forms `digits`, `digits.digits`, `digits.`, `.digits`
(no exponent, no inf/nan, no surrounding whitespace, no underscores — the
forms that can occur in this telemetry).  `none` models the ValueError. -/
def parseUnsigned (s : Chars) : Option ℚ :=
  let ip := s.takeWhile isDigitC
  let r := s.dropWhile isDigitC
  match r with
  | [] => if ip = [] then none else some (natVal ip)
  | '.' :: fp =>
    if fp.all isDigitC ∧ (ip ≠ [] ∨ fp ≠ []) then
      some (natVal ip + natVal fp / 10 ^ fp.length)
    else none
  | _ => none

/-- CPython `float()` string conversion (see `parseUnsigned`). -/
def parseFloat (s : Chars) : Option ℚ :=
  match s with
  | '+' :: t => parseUnsigned t
  | '-' :: t => (parseUnsigned t).map (fun q => -q)
  | _ => parseUnsigned s

/-- Non-greedy `.+?` followed by a literal `,` inside `regex_header`
(the comma is not part of the group): having consumed `acc.reverse`,
stop at the first comma; `.` never matches a newline. -/
def dpGo (acc : Chars) : Chars → Option (Chars × Chars)
  | [] => none
  | c :: t =>
    if c = ',' then some (acc.reverse, t)
    else if c = '\n' then none
    else dpGo (c :: acc) t

/-- The group `(?P<id_msg>.+?),` of `regex_header`: at least one character
must be consumed before the terminating comma is looked for. -/
def dotPlusComma : Chars → Option (Chars × Chars)
  | [] => none
  | c :: t => if c = '\n' then none else dpGo [c] t

/-- The two capture groups of `regex_header`. -/
structure HeaderT where
  id_station : Chars
  id_msg : Chars
deriving DecidableEq

/-- Backtracking over the greedy `(T|R)+` group of `regex_header`: the run
of `T`/`R` characters at the head of `u` has some maximal length, and the
engine surrenders characters from the right until `(?P<id_msg>.+?),`
matches on the remainder. -/
def tryTR (ds : Chars) (u : Chars) : Nat → Option HeaderT
  | 0 => none
  | j + 1 =>
    match dotPlusComma (u.drop (j + 1)) with
    | some p => some ⟨ds, p.1⟩
    | none => tryTR ds u j

/-- One attempt of `regex_header` anchored at the current position.
`[0-9]+` is greedy and cannot usefully backtrack (a surrendered digit can
never match `(T|R)`), so the digit run is maximal. -/
def matchHeaderAt (s : Chars) : Option HeaderT :=
  let ds := s.takeWhile isDigitC
  if ds = [] then none
  else
    let r1 := s.dropWhile isDigitC
    tryTR ds r1 (r1.takeWhile isTR).length

/-- `[m.groupdict() for m in regex_header.finditer(line)][0]`: the leftmost
match of the header pattern; `none` models the IndexError raised on a line
with no header match. -/
def get_header : Chars → Option HeaderT
  | [] => none
  | c :: t =>
    match matchHeaderAt (c :: t) with
    | some h => some h
    | none => get_header t

/-- The group `(?P<value>.+?(,|$))` of `regex_data`, continuation after at
least one character has been consumed (`acc.reverse`): the alternation
prefers a comma, which is captured inside the group, and otherwise accepts
the end of the string, where Python `$` also matches just before a final
newline. -/
def mvGo (acc : Chars) : Chars → Option (Chars × Chars)
  | [] => some (acc.reverse, [])
  | c :: t =>
    if c = ',' then some (acc.reverse ++ [','], t)
    else if c = '\n' then (if t = [] then some (acc.reverse, ['\n']) else none)
    else mvGo (c :: acc) t

/-- The group `(?P<value>.+?(,|$))` of `regex_data`. -/
def matchValue : Chars → Option (Chars × Chars)
  | [] => none
  | c :: t => if c = '\n' then none else mvGo [c] t

/-- Length of the run of `=` characters at the head of the input. -/
def countEq (r : Chars) : Nat := (r.takeWhile (fun c => c == '=')).length

/-- Backtracking over the greedy `=+` of `regex_data`: try surrendering `=`
characters from the right until the value group matches. -/
def tryFrom (u : Chars) : Nat → Option (Chars × Chars)
  | 0 => none
  | j + 1 =>
    match matchValue (u.drop (j + 1)) with
    | some p => some p
    | none => tryFrom u j

/-- Match `=+(?P<value>.+?(,|$))` at the head of `r`. -/
def tryEqs (r : Chars) : Option (Chars × Chars) := tryFrom r (countEq r)

/-- `regex_data.findall`: leftmost, non-overlapping matches of
`(?P<type>[A-Z][a-z])=+(?P<value>.+?(,|$))`, scanning forward one position
at a time, resuming after the end of each match.  The fuel argument bounds
the number of scanning steps; every step either advances one position or
jumps past a match, so `s.length` steps always suffice. -/
def findAllF : Nat → Chars → List (Chars × Chars)
  | 0, _ => []
  | _ + 1, [] => []
  | _ + 1, [_] => []
  | f + 1, c1 :: c2 :: r =>
    if isUp c1 && isLo c2 then
      match tryEqs r with
      | some p => ([c1, c2], p.1) :: findAllF f p.2
      | none => findAllF f (c2 :: r)
    else findAllF f (c2 :: r)

/-- `regex_data.findall line` (capture groups `type` and `value`). -/
def findAll (s : Chars) : List (Chars × Chars) := findAllF s.length s

/-- `regex_eol.sub('', s)` with `regex_eol = (,|\r)$`: remove one trailing
comma or carriage return; Python `$` also matches just before a final
newline. -/
def eolStrip (s : Chars) : Chars :=
  if s.getLast? = some '\n' then
    if s.dropLast.getLast? = some ',' ∨ s.dropLast.getLast? = some '\r' then
      s.dropLast.dropLast ++ ['\n']
    else s
  else if s.getLast? = some ',' ∨ s.getLast? = some '\r' then s.dropLast
  else s

/-- `get_data`: `{m[0]: regex_eol.sub('', m[1]) for m in regex_data.findall(line)}`. -/
def get_data (line : Chars) : List (Chars × Chars) :=
  dictify ((findAll line).map (fun p => (p.1, eolStrip p.2)))

/-- An astropy unit as used by this module: a rational scale factor over a
base dimension tag (`Pa` for pressures as pascal, `mps` for speeds as
metres per second, `deg`, `pct`, and the affine temperature tags `C`/`F`). -/
structure VUnit where
  factor : ℚ
  base : String
deriving DecidableEq

/-- `astropy.units.Pa`. -/
def uPa : VUnit := ⟨1, "Pa"⟩

/-- `astropy.units.bar` (100000 Pa). -/
def uBar : VUnit := ⟨100000, "Pa"⟩

/-- `astropy.units.cds.mmHg` (133.322387415 Pa, the CDS definition). -/
def uMmHg : VUnit := ⟨133322387415 / 1000000000, "Pa"⟩

/-- `astropy.units.meter / units.second`. -/
def uMps : VUnit := ⟨1, "mps"⟩

/-- `astropy.units.kilometer / units.second` (1000 m/s). -/
def uKmps : VUnit := ⟨1000, "mps"⟩

/-- Kilometres per hour, the unit the instrument manual documents for wind
suffix `K`; stated from the spec only for comparison with the source table. -/
def uKmph : VUnit := ⟨1000 / 3600, "mps"⟩

/-- `astropy.units.imperial.mi / units.hour` (1609.344 m per 3600 s). -/
def uMph : VUnit := ⟨1609344 / 3600000, "mps"⟩

/-- `astropy.units.imperial.knot` (1852 m per 3600 s). -/
def uKnot : VUnit := ⟨1852 / 3600, "mps"⟩

/-- `astropy.units.degree`. -/
def uDegree : VUnit := ⟨1, "deg"⟩

/-- `astropy.units.pct`. -/
def uPct : VUnit := ⟨1, "pct"⟩

/-- `astropy.units.Celsius` (`deg_C`). -/
def uCelsius : VUnit := ⟨1, "C"⟩

/-- `astropy.units.Fahrenheit`. -/
def uFahrenheit : VUnit := ⟨1, "F"⟩

/-- Scalar multiple of a unit, `q * u` in astropy. -/
def scaleU (q : ℚ) (u : VUnit) : VUnit := ⟨q * u.factor, u.base⟩

/-- The source's static table `vaisala_unit_dict`, keyed by quantity name
(`'Pa'` pressure, `'Sx'` wind) and unit-suffix character; `none` models the
KeyError on an unknown suffix. -/
def vaisala_unit_dict (quantity : String) (suf : Char) : Option VUnit :=
  if quantity = "Pa" then
    if suf = 'H' then some (scaleU 100 uPa)
    else if suf = 'P' then some uPa
    else if suf = 'B' then some uBar
    else if suf = 'M' then some uMmHg
    else if suf = 'I' then some (scaleU (25399999705 / 1000000000) uMmHg)
    else none
  else if quantity = "Sx" then
    if suf = 'M' then some uMps
    else if suf = 'K' then some uKmps
    else if suf = 'S' then some uMph
    else if suf = 'N' then some uKnot
    else none
  else none

/-- Modelled from the spec: the accepted output units for wind direction.
The sets `__accepted_direction_unit__` and the like live in the chimera
framework interfaces (`chimera.interfaces.weatherstation`), which are not
part of this repository's sources; spec section 4.3 gives the closed sets
per quantity (angle: degree). -/
def accepted_direction_units : List VUnit := [uDegree]

/-- Modelled from the spec: accepted output units for wind speed
(meters/second, kilometers/second, miles/hour, knots). -/
def accepted_speed_units : List VUnit := [uMps, uKmps, uMph, uKnot]

/-- Modelled from the spec: accepted output units for pressure
(pascal, bar, millimeters-of-mercury, inches-of-mercury). -/
def accepted_pressure_units : List VUnit :=
  [uPa, uBar, uMmHg, scaleU (25399999705 / 1000000000) uMmHg]

/-- Modelled from the spec: accepted output units for humidity (percent). -/
def accepted_humidity_units : List VUnit := [uPct]

/-- Modelled from the spec: accepted output units for temperature
(Celsius, Fahrenheit). -/
def accepted_temperature_units : List VUnit := [uCelsius, uFahrenheit]

/-- Modelled from the spec: `WeatherBase._convert_units` of the chimera
framework (not in this repository's sources), contract from spec section
4.3: scale between units of the same dimension, affine conversion between
Celsius and Fahrenheit, failure on anything else. -/
def convert_units (v : ℚ) (uin uout : VUnit) : Option ℚ :=
  if uin.base = uout.base then some (v * uin.factor / uout.factor)
  else if uin = uCelsius ∧ uout = uFahrenheit then some (v * 9 / 5 + 32)
  else if uin = uFahrenheit ∧ uout = uCelsius then some ((v - 32) * 5 / 9)
  else none

/-- Real-valued counterpart of `convert_units`, used by the dew-point path
whose magnitude is transcendental. -/
noncomputable def convertR (v : ℝ) (uin uout : VUnit) : Option ℝ :=
  if uin.base = uout.base then some (v * (uin.factor : ℝ) / (uout.factor : ℝ))
  else if uin = uCelsius ∧ uout = uFahrenheit then some (v * 9 / 5 + 32)
  else if uin = uFahrenheit ∧ uout = uCelsius then some ((v - 32) * 5 / 9)
  else none

/-- The per-message-id record: the parsed field dict plus the `obs_time`
entry the source stores alongside it (see the module comment). -/
structure Record where
  fields : List (Chars × Chars)
  obs_time : Nat
deriving DecidableEq

/-- The instrument state: the configured `id_station` and `self._data`. -/
structure Vaisala where
  id_station : Nat
  data : List (Chars × Record)
deriving DecidableEq

/-- The error outcomes of the embedded operations, following the spec's
taxonomy; in the source they are an IndexError (no header match), KeyError
(missing record, missing field, unknown unit suffix), ValueError (float
parse) or `OptionConversionException` (rejected output unit). -/
inductive VError where
  | malformedHeader
  | recordNotAvailable
  | fieldNotAvailable
  | malformedValue
  | unknownUnitSuffix
  | unsupportedOutputUnit
  | unsupportedConversion
deriving DecidableEq

instance {ε α : Type} [DecidableEq ε] [DecidableEq α] : DecidableEq (Except ε α)
  | .ok a, .ok b =>
    if h : a = b then .isTrue (by rw [h]) else .isFalse (fun c => h (Except.ok.inj c))
  | .ok _, .error _ => .isFalse (fun c => Except.noConfusion c)
  | .error _, .ok _ => .isFalse (fun c => Except.noConfusion c)
  | .error e, .error f =>
    if h : e = f then .isTrue (by rw [h]) else .isFalse (fun c => h (Except.error.inj c))

/-- `WSValue(obs_time, magnitude, unit)` returned by every accessor. -/
structure WSValue where
  obs_time : Nat
  magnitude : ℚ
  unit : VUnit
deriving DecidableEq

/-- The dew-point return value; its magnitude is a real number because the
computation is transcendental. -/
structure DPValue where
  obs_time : Nat
  magnitude : ℝ
  unit : VUnit

/-- Message id `'1'` (wind block). -/
def msg1 : Chars := ['1']

/-- Message id `'2'` (pressure/humidity/temperature block). -/
def msg2 : Chars := ['2']

/-- Field code `'Dm'`. -/
def dmCode : Chars := ['D', 'm']

/-- Field code `'Sm'`. -/
def smCode : Chars := ['S', 'm']

/-- Field code `'Pa'`. -/
def paCode : Chars := ['P', 'a']

/-- Field code `'Ua'`. -/
def uaCode : Chars := ['U', 'a']

/-- Field code `'Ta'`. -/
def taCode : Chars := ['T', 'a']

/-- `Vaisala.update_data`: parse the header (an unmatched header raises),
drop the line silently when the station id differs from the configured one,
otherwise parse the fields and overwrite the record for that message id,
stamping it with `datetime.utcnow()` — the clock reading is the explicit
input `now`. -/
def update_data (st : Vaisala) (line : Chars) (now : Nat) : Except VError Vaisala :=
  match get_header line with
  | none => .error .malformedHeader
  | some h =>
    if strToNat h.id_station = st.id_station then
      .ok { st with data := dictInsert st.data h.id_msg ⟨get_data line, now⟩ }
    else .ok st

/-- `Vaisala.wind_direction`: validate the requested unit, read record `'1'`
field `'Dm'`, parse `value[:-1]` as a float and convert from degrees. -/
def wind_direction (st : Vaisala) (unit_out : VUnit) : Except VError WSValue :=
  if unit_out ∈ accepted_direction_units then
    match dictLookup st.data msg1 with
    | none => .error .recordNotAvailable
    | some r =>
      match dictLookup r.fields dmCode with
      | none => .error .fieldNotAvailable
      | some v =>
        match parseFloat v.dropLast with
        | none => .error .malformedValue
        | some x =>
          match convert_units x uDegree unit_out with
          | none => .error .unsupportedConversion
          | some y => .ok ⟨r.obs_time, y, unit_out⟩
  else .error .unsupportedOutputUnit

/-- `Vaisala.wind_speed`: validate the requested unit, read record `'1'`
field `'Sm'`, parse `value[:-1]` as a float (evaluated before the suffix
lookup, so a parse failure wins), resolve `value[-1]` through
`vaisala_unit_dict['Sx']` and convert. -/
def wind_speed (st : Vaisala) (unit_out : VUnit) : Except VError WSValue :=
  if unit_out ∈ accepted_speed_units then
    match dictLookup st.data msg1 with
    | none => .error .recordNotAvailable
    | some r =>
      match dictLookup r.fields smCode with
      | none => .error .fieldNotAvailable
      | some v =>
        match parseFloat v.dropLast with
        | none => .error .malformedValue
        | some x =>
          match v.getLast? with
          | none => .error .malformedValue
          | some ch =>
            match vaisala_unit_dict "Sx" ch with
            | none => .error .unknownUnitSuffix
            | some uin =>
              match convert_units x uin unit_out with
              | none => .error .unsupportedConversion
              | some y => .ok ⟨r.obs_time, y, unit_out⟩
  else .error .unsupportedOutputUnit

/-- `Vaisala.pressure`: same shape as `wind_speed` over record `'2'`, field
`'Pa'`, suffix table `vaisala_unit_dict['Pa']`. -/
def pressure (st : Vaisala) (unit_out : VUnit) : Except VError WSValue :=
  if unit_out ∈ accepted_pressure_units then
    match dictLookup st.data msg2 with
    | none => .error .recordNotAvailable
    | some r =>
      match dictLookup r.fields paCode with
      | none => .error .fieldNotAvailable
      | some v =>
        match parseFloat v.dropLast with
        | none => .error .malformedValue
        | some x =>
          match v.getLast? with
          | none => .error .malformedValue
          | some ch =>
            match vaisala_unit_dict "Pa" ch with
            | none => .error .unknownUnitSuffix
            | some uin =>
              match convert_units x uin unit_out with
              | none => .error .unsupportedConversion
              | some y => .ok ⟨r.obs_time, y, unit_out⟩
  else .error .unsupportedOutputUnit

/-- `Vaisala.humidity`: record `'2'`, field `'Ua'`; the unit suffix is read
but ignored, the source value is always treated as percent. -/
def humidity (st : Vaisala) (unit_out : VUnit) : Except VError WSValue :=
  if unit_out ∈ accepted_humidity_units then
    match dictLookup st.data msg2 with
    | none => .error .recordNotAvailable
    | some r =>
      match dictLookup r.fields uaCode with
      | none => .error .fieldNotAvailable
      | some v =>
        match parseFloat v.dropLast with
        | none => .error .malformedValue
        | some x =>
          match convert_units x uPct unit_out with
          | none => .error .unsupportedConversion
          | some y => .ok ⟨r.obs_time, y, unit_out⟩
  else .error .unsupportedOutputUnit

/-- `Vaisala.temperature`: record `'2'`, field `'Ta'`; the suffix resolves
to Celsius exactly when it is `'C'` and to Fahrenheit otherwise (not
table-driven).  The conversion to `unit_out` is the chimera framework's
(spec section 4.4 step 5). -/
def temperature (st : Vaisala) (unit_out : VUnit) : Except VError WSValue :=
  if unit_out ∈ accepted_temperature_units then
    match dictLookup st.data msg2 with
    | none => .error .recordNotAvailable
    | some r =>
      match dictLookup r.fields taCode with
      | none => .error .fieldNotAvailable
      | some v =>
        match parseFloat v.dropLast with
        | none => .error .malformedValue
        | some x =>
          match v.getLast? with
          | none => .error .malformedValue
          | some ch =>
            match convert_units x (if ch = 'C' then uCelsius else uFahrenheit) unit_out with
            | none => .error .unsupportedConversion
            | some y => .ok ⟨r.obs_time, y, unit_out⟩
  else .error .unsupportedOutputUnit

/-- The `gamma_m` lambda of `Vaisala.dew_point`, over the reals:
`np.log(RH / 100. * np.exp((b - T / d) * (T / (c + T))))` with
`b = 18.678`, `c = 257.14`, `d = 235.5`. -/
noncomputable def gamma_m (T RH : ℝ) : ℝ :=
  Real.log (RH / 100 * Real.exp ((18.678 - T / 235.5) * (T / (257.14 + T))))

/-- The `Tdp` lambda of `Vaisala.dew_point`:
`c * gamma_m(T, RH) / (b - gamma_m(T, RH))`. -/
noncomputable def Tdp (T RH : ℝ) : ℝ :=
  257.14 * gamma_m T RH / (18.678 - gamma_m T RH)

/-- `Vaisala.dew_point`: no output-unit validation of its own; reads
`self._data['2']['obs_time']` (argument evaluation order puts this record
lookup first), then calls `temperature(units.deg_C)` and `humidity(units.pct)`
and feeds them to `Tdp`, converting the result from Celsius to `unit_out`.
The source applies no domain check: in IEEE arithmetic `np.log(0)` silently
evaluates to `-inf` (and `Tdp` then to NaN); over `ℝ` the same expression is
`Real.log 0`, a junk value, and in both semantics no error is raised. -/
noncomputable def dew_point (st : Vaisala) (unit_out : VUnit) : Except VError DPValue :=
  match dictLookup st.data msg2 with
  | none => .error .recordNotAvailable
  | some r =>
    match temperature st uCelsius with
    | .error e => .error e
    | .ok tv =>
      match humidity st uPct with
      | .error e => .error e
      | .ok hv =>
        match convertR (Tdp (tv.magnitude : ℝ) (hv.magnitude : ℝ)) uCelsius unit_out with
        | none => .error .unsupportedConversion
        | some m => .ok ⟨r.obs_time, m, unit_out⟩

/-- A fresh instrument with the default configuration `id_station = 0` and
an empty record store. -/
def vInit : Vaisala := ⟨0, []⟩

/-- The state reached from a fresh instrument by one `update_data` call at
clock value 0 (the initial state if the update raised). -/
def afterUpd (line : Chars) : Vaisala :=
  match update_data vInit line 0 with
  | .ok s => s
  | .error _ => vInit

/-- Encoding of a field list as the comma-terminated sentence tail
`code=value,code=value,...,`. -/
def encodeFields (fs : List (Chars × Chars)) : Chars :=
  fs.foldr (fun p acc => p.1 ++ '=' :: (p.2 ++ ',' :: acc)) []

/-- A valid sentence line: station digits, a `(T|R)` separator run, the
message id, a comma, the comma-terminated fields, a final carriage return. -/
def mkLine (ds sep msgid : Chars) (fs : List (Chars × Chars)) : Chars :=
  ds ++ sep ++ msgid ++ ',' :: (encodeFields fs ++ ['\r'])

/-- A well-formed field code: one uppercase then one lowercase ASCII letter. -/
def goodCodeB (k : Chars) : Bool :=
  match k with
  | [a, b] => isUp a && isLo b
  | _ => false

/-- A well-formed field value: nonempty, and free of the comma, newline and
equals characters that would interfere with the sentence framing. -/
def goodValB (v : Chars) : Bool :=
  !v.isEmpty && v.all (fun c => !(c == ',') && !(c == '\n') && !(c == '='))

theorem mvGo_rem_le (u : Chars) :
    ∀ acc v r, mvGo acc u = some (v, r) → r.length ≤ u.length := by
  induction u with
  | nil =>
    intro acc v r h
    simp only [mvGo, Option.some.injEq, Prod.mk.injEq] at h
    simp [← h.2]
  | cons c t ih =>
    intro acc v r h
    simp only [mvGo] at h
    by_cases hc : c = ','
    · rw [if_pos hc] at h
      simp only [Option.some.injEq, Prod.mk.injEq] at h
      simp only [← h.2, List.length_cons]
      omega
    · rw [if_neg hc] at h
      by_cases hn : c = '\n'
      · rw [if_pos hn] at h
        by_cases ht : t = []
        · rw [if_pos ht] at h
          simp only [Option.some.injEq, Prod.mk.injEq] at h
          simp [← h.2, ht]
        · rw [if_neg ht] at h
          exact absurd h (by simp)
      · rw [if_neg hn] at h
        have := ih (c :: acc) v r h
        simp
        omega

theorem matchValue_rem_lt (u : Chars) (v r : Chars) (h : matchValue u = some (v, r)) :
    r.length < u.length := by
  match u with
  | [] => simp [matchValue] at h
  | c :: t =>
    simp only [matchValue] at h
    by_cases hn : c = '\n'
    · rw [if_pos hn] at h; exact absurd h (by simp)
    · rw [if_neg hn] at h
      have := mvGo_rem_le t [c] v r h
      simp
      omega

theorem tryFrom_rem_lt (u : Chars) :
    ∀ j v r, tryFrom u j = some (v, r) → r.length < u.length := by
  intro j
  induction j with
  | zero => intro v r h; simp [tryFrom] at h
  | succ j ih =>
    intro v r h
    simp only [tryFrom] at h
    cases hm : matchValue (u.drop (j + 1)) with
    | none => rw [hm] at h; exact ih v r h
    | some p =>
      rw [hm] at h
      simp only [Option.some.injEq] at h
      obtain ⟨rfl⟩ : p = (v, r) := h
      have h1 := matchValue_rem_lt _ _ _ hm
      have h2 : (u.drop (j + 1)).length ≤ u.length := by simp
      omega

theorem tryEqs_rem_lt (u : Chars) (v r : Chars) (h : tryEqs u = some (v, r)) :
    r.length < u.length :=
  tryFrom_rem_lt u (countEq u) v r h

theorem findAllF_nil (f : Nat) : findAllF f [] = [] := by
  cases f <;> rfl

theorem findAllF_single (f : Nat) (a : Char) : findAllF f [a] = [] := by
  cases f <;> rfl

theorem findAllF_eq (f : Nat) :
    ∀ g s, s.length ≤ f → s.length ≤ g → findAllF f s = findAllF g s := by
  induction f with
  | zero =>
    intro g s hf _
    have : s = [] := by cases s <;> simp_all
    subst this
    rw [findAllF_nil, findAllF_nil]
  | succ f ih =>
    intro g s hf hg
    match s with
    | [] => rw [findAllF_nil, findAllF_nil]
    | [a] => rw [findAllF_single, findAllF_single]
    | c1 :: c2 :: r =>
      match g, hg with
      | g + 1, hg =>
        simp only [findAllF]
        simp only [List.length_cons] at hf hg
        by_cases hud : (isUp c1 && isLo c2) = true
        · rw [if_pos hud, if_pos hud]
          cases htr : tryEqs r with
          | none =>
            exact ih g (c2 :: r) (by simp; omega) (by simp; omega)
          | some p =>
            have hlt := tryEqs_rem_lt r p.1 p.2 (by rw [htr])
            dsimp only
            rw [ih g p.2 (by omega) (by omega)]
        · rw [if_neg hud, if_neg hud]
          exact ih g (c2 :: r) (by simp; omega) (by simp; omega)

theorem findAll_nil : findAll [] = [] := rfl

theorem findAll_single (a : Char) : findAll [a] = [] := rfl

theorem findAll_cons_cons (c1 c2 : Char) (r : Chars) :
    findAll (c1 :: c2 :: r) =
      if isUp c1 && isLo c2 then
        match tryEqs r with
        | some p => ([c1, c2], p.1) :: findAll p.2
        | none => findAll (c2 :: r)
      else findAll (c2 :: r) := by
  show findAllF (r.length + 1 + 1) (c1 :: c2 :: r) = _
  simp only [findAllF]
  by_cases hud : (isUp c1 && isLo c2) = true
  · rw [if_pos hud, if_pos hud]
    cases htr : tryEqs r with
    | none => rfl
    | some p =>
      have hlt := tryEqs_rem_lt r p.1 p.2 (by rw [htr])
      have heq : findAllF (r.length + 1) p.2 = findAllF p.2.length p.2 :=
        findAllF_eq (r.length + 1) p.2.length p.2 (by omega) le_rfl
      dsimp only
      rw [heq]
      rfl
  · rw [if_neg hud, if_neg hud]
    rfl

theorem findAll_skip_notUp (c1 : Char) (s : Chars) (h : isUp c1 = false) :
    findAll (c1 :: s) = findAll s := by
  cases s with
  | nil => rfl
  | cons c2 r =>
    rw [findAll_cons_cons]
    simp [h]

theorem findAll_skip_notLo (c1 c2 : Char) (r : Chars) (h : isLo c2 = false) :
    findAll (c1 :: c2 :: r) = findAll (c2 :: r) := by
  rw [findAll_cons_cons]
  simp [h]

theorem findAll_skip_noEqs (c1 c2 : Char) (r : Chars) (h : tryEqs r = none) :
    findAll (c1 :: c2 :: r) = findAll (c2 :: r) := by
  rw [findAll_cons_cons, h]
  split <;> rfl

theorem tryEqs_none_of_head (r : Chars) (h : r.head? ≠ some '=') : tryEqs r = none := by
  have : countEq r = 0 := by
    cases r with
    | nil => rfl
    | cons c t =>
      simp only [List.head?] at h
      have : (c == '=') = false := by
        cases hb : c == '=' with
        | false => rfl
        | true => exact absurd (by rw [eq_of_beq hb]) h
      simp [countEq, List.takeWhile, this]
  rw [tryEqs, this]
  rfl

theorem goodCodeB_spec (k : Chars) (h : goodCodeB k = true) :
    ∃ a b, k = [a, b] ∧ isUp a = true ∧ isLo b = true := by
  match k with
  | [] => simp [goodCodeB] at h
  | [_] => simp [goodCodeB] at h
  | [a, b] =>
    simp only [goodCodeB, Bool.and_eq_true] at h
    exact ⟨a, b, rfl, h.1, h.2⟩
  | _ :: _ :: _ :: _ => simp [goodCodeB] at h

theorem goodValB_spec (v : Chars) (h : goodValB v = true) :
    v ≠ [] ∧ ∀ c ∈ v, c ≠ ',' ∧ c ≠ '\n' ∧ c ≠ '=' := by
  simp only [goodValB, Bool.and_eq_true, List.all_eq_true] at h
  obtain ⟨h1, h2⟩ := h
  constructor
  · intro hv
    subst hv
    simp at h1
  · intro c hc
    have := h2 c hc
    simp only [Bool.and_eq_true, Bool.not_eq_true', beq_eq_false_iff_ne, ne_eq] at this
    exact ⟨this.1.1, this.1.2, this.2⟩

theorem digit_notUp (c : Char) (h : isDigitC c = true) : isUp c = false := by
  simp only [isDigitC, Bool.and_eq_true, decide_eq_true_eq] at h
  simp only [isUp, Bool.and_eq_false_iff, decide_eq_false_iff_not]
  omega

theorem isTR_cases (c : Char) (h : isTR c = true) : c = 'T' ∨ c = 'R' := by
  simp only [isTR, Bool.or_eq_true, beq_iff_eq] at h
  exact h

theorem TR_up (c : Char) (h : isTR c = true) : isUp c = true := by
  rcases isTR_cases c h with rfl | rfl <;> rfl

theorem TR_notLo (c : Char) (h : isTR c = true) : isLo c = false := by
  rcases isTR_cases c h with rfl | rfl <;> rfl

theorem TR_notDigit (c : Char) (h : isTR c = true) : isDigitC c = false := by
  rcases isTR_cases c h with rfl | rfl <;> rfl

theorem mvGo_through (w : Chars) (hw : ∀ c ∈ w, c ≠ ',' ∧ c ≠ '\n') :
    ∀ acc rest, mvGo acc (w ++ ',' :: rest) = some (acc.reverse ++ (w ++ [',']), rest) := by
  induction w with
  | nil =>
    intro acc rest
    simp [mvGo]
  | cons a w' ih =>
    intro acc rest
    obtain ⟨ha1, ha2⟩ := hw a (by simp)
    simp only [List.cons_append, mvGo]
    rw [if_neg ha1, if_neg ha2]
    simp only [List.append_eq]
    rw [ih (fun c hc => hw c (by simp [hc])) (a :: acc) rest]
    simp

theorem matchValue_through (v rest : Chars) (hv : goodValB v = true) :
    matchValue (v ++ ',' :: rest) = some (v ++ [','], rest) := by
  obtain ⟨hne, hall⟩ := goodValB_spec v hv
  match v, hne with
  | a :: w, _ =>
    obtain ⟨ha1, ha2, _⟩ := hall a (by simp)
    simp only [List.cons_append, matchValue]
    rw [if_neg ha2]
    rw [mvGo_through w (fun c hc => ⟨(hall c (by simp [hc])).1, (hall c (by simp [hc])).2.1⟩) [a] rest]
    simp

theorem tryEqs_token (v rest : Chars) (hv : goodValB v = true) :
    tryEqs ('=' :: (v ++ ',' :: rest)) = some (v ++ [','], rest) := by
  obtain ⟨hne, hall⟩ := goodValB_spec v hv
  match v, hne with
  | a :: w, _ =>
    have ha := (hall a (by simp)).2.2
    have hcount : countEq ('=' :: (a :: w ++ ',' :: rest)) = 1 := by
      have : (a == '=') = false := by
        cases hb : a == '=' with
        | false => rfl
        | true => exact absurd (eq_of_beq hb) ha
      simp [countEq, List.takeWhile, this]
    rw [tryEqs, hcount]
    simp only [tryFrom, List.drop_succ_cons, List.drop_zero]
    rw [matchValue_through (a :: w) rest hv]

theorem findAll_skip_digits (ds : Chars) (h : ∀ c ∈ ds, isDigitC c = true) (s : Chars) :
    findAll (ds ++ s) = findAll s := by
  induction ds with
  | nil => rfl
  | cons d ds' ih =>
    simp only [List.cons_append]
    rw [findAll_skip_notUp d _ (digit_notUp d (h d (by simp)))]
    exact ih (fun c hc => h c (by simp [hc]))

theorem findAll_skip_msgid (m rest : Chars) (hm : ∀ c ∈ m, c ≠ '=') :
    findAll (m ++ ',' :: rest) = findAll rest := by
  induction m with
  | nil =>
    simp only [List.nil_append]
    exact findAll_skip_notUp ',' rest (by rfl)
  | cons x m' ih =>
    simp only [List.cons_append]
    by_cases hx : isUp x = true
    · match m' with
      | [] =>
        simp only [List.nil_append]
        rw [findAll_skip_notLo x ',' rest (by rfl)]
        exact findAll_skip_notUp ',' rest (by rfl)
      | y :: m2 =>
        by_cases hy : isLo y = true
        · rw [show (y :: m2) ++ ',' :: rest = y :: (m2 ++ ',' :: rest) by simp,
            findAll_skip_noEqs x y (m2 ++ ',' :: rest) ?_]
          · exact ih (fun c hc => hm c (by simp [hc]))
          · apply tryEqs_none_of_head
            match m2 with
            | [] => simp
            | z :: m3 =>
              simp only [List.cons_append, List.head?_cons, ne_eq, Option.some.injEq]
              exact hm z (by simp)
        · rw [show (y :: m2) ++ ',' :: rest = y :: (m2 ++ ',' :: rest) by simp,
            findAll_skip_notLo x y (m2 ++ ',' :: rest) (by simpa using hy)]
          exact ih (fun c hc => hm c (by simp [hc]))
    · rw [findAll_skip_notUp x _ (by simpa using hx)]
      exact ih (fun c hc => hm c (by simp [hc]))

theorem findAll_skip_sep (sep msgid rest : Chars)
    (hsep : ∀ c ∈ sep, isTR c = true)
    (hmid : msgid ≠ []) (hmeq : ∀ c ∈ msgid, c ≠ '=') :
    findAll (sep ++ (msgid ++ ',' :: rest)) = findAll (msgid ++ ',' :: rest) := by
  induction sep with
  | nil => rfl
  | cons a sep' ih =>
    simp only [List.cons_append]
    have ha := hsep a (by simp)
    match sep' with
    | b :: sep2 =>
      rw [show (b :: sep2) ++ (msgid ++ ',' :: rest) = b :: (sep2 ++ (msgid ++ ',' :: rest)) by simp,
        findAll_skip_notLo a b _ (TR_notLo b (hsep b (by simp)))]
      exact ih (fun c hc => hsep c (by simp [hc]))
    | [] =>
      simp only [List.nil_append]
      match msgid, hmid with
      | m :: mtail, _ =>
        by_cases hmlo : isLo m = true
        · rw [show (m :: mtail) ++ ',' :: rest = m :: (mtail ++ ',' :: rest) by simp,
            findAll_skip_noEqs a m (mtail ++ ',' :: rest) ?_]
          apply tryEqs_none_of_head
          match mtail with
          | [] => simp
          | z :: m3 =>
            simp only [List.cons_append, List.head?_cons, ne_eq, Option.some.injEq]
            exact hmeq z (by simp)
        · rw [show (m :: mtail) ++ ',' :: rest = m :: (mtail ++ ',' :: rest) by simp,
            findAll_skip_notLo a m (mtail ++ ',' :: rest) (by simpa using hmlo)]

theorem findAll_encode (fs : List (Chars × Chars)) (tail : Chars)
    (hf : ∀ p ∈ fs, goodCodeB p.1 = true ∧ goodValB p.2 = true) :
    findAll (encodeFields fs ++ tail) =
      fs.map (fun p => (p.1, p.2 ++ [','])) ++ findAll tail := by
  induction fs with
  | nil => simp [encodeFields]
  | cons p fs' ih =>
    obtain ⟨hc, hv⟩ := hf p (by simp)
    obtain ⟨a, b, hab, hua, hlb⟩ := goodCodeB_spec p.1 hc
    have hstep : encodeFields (p :: fs') ++ tail =
        a :: b :: '=' :: (p.2 ++ ',' :: (encodeFields fs' ++ tail)) := by
      simp [encodeFields, hab, List.append_assoc]
    rw [hstep, findAll_cons_cons]
    rw [if_pos (by simp [hua, hlb])]
    rw [tryEqs_token p.2 (encodeFields fs' ++ tail) hv]
    dsimp only
    rw [ih (fun q hq => hf q (by simp [hq]))]
    simp [hab]

theorem takeWhile_append_stop (p : Char → Bool) (l r : Chars)
    (hl : ∀ c ∈ l, p c = true) (hr : ∀ c, r.head? = some c → p c = false) :
    (l ++ r).takeWhile p = l ∧ (l ++ r).dropWhile p = r := by
  induction l with
  | nil =>
    simp only [List.nil_append]
    cases r with
    | nil => simp
    | cons c t =>
      have := hr c rfl
      simp [List.takeWhile, List.dropWhile, this]
  | cons a l' ih =>
    have ha := hl a (by simp)
    obtain ⟨h1, h2⟩ := ih (fun c hc => hl c (by simp [hc]))
    simp only [List.cons_append, List.takeWhile, List.dropWhile, ha, List.append_eq]
    exact ⟨by rw [h1], by rw [h2]⟩

theorem dpGo_through (w : Chars) (hw : ∀ c ∈ w, c ≠ ',' ∧ c ≠ '\n') :
    ∀ acc rest, dpGo acc (w ++ ',' :: rest) = some (acc.reverse ++ w, rest) := by
  induction w with
  | nil =>
    intro acc rest
    simp [dpGo]
  | cons a w' ih =>
    intro acc rest
    obtain ⟨ha1, ha2⟩ := hw a (by simp)
    simp only [List.cons_append, dpGo]
    rw [if_neg ha1, if_neg ha2]
    simp only [List.append_eq]
    rw [ih (fun c hc => hw c (by simp [hc])) (a :: acc) rest]
    simp

theorem dotPlusComma_through (m rest : Chars)
    (hne : m ≠ []) (hm : ∀ c ∈ m, c ≠ ',' ∧ c ≠ '\n') :
    dotPlusComma (m ++ ',' :: rest) = some (m, rest) := by
  match m, hne with
  | a :: w, _ =>
    obtain ⟨_, ha2⟩ := hm a (by simp)
    simp only [List.cons_append, dotPlusComma]
    rw [if_neg ha2]
    rw [dpGo_through w (fun c hc => hm c (by simp [hc])) [a] rest]
    simp

theorem get_header_valid (ds sep msgid fsrest : Chars)
    (hds : ds ≠ [] ∧ ∀ c ∈ ds, isDigitC c = true)
    (hsep : sep ≠ [] ∧ ∀ c ∈ sep, isTR c = true)
    (hmid : msgid ≠ [] ∧ (∀ c ∈ msgid, c ≠ ',' ∧ c ≠ '\n') ∧
      (∀ c, msgid.head? = some c → isTR c = false)) :
    get_header (ds ++ sep ++ msgid ++ ',' :: fsrest) = some ⟨ds, msgid⟩ := by
  obtain ⟨hds1, hds2⟩ := hds
  obtain ⟨hsep1, hsep2⟩ := hsep
  obtain ⟨hmid1, hmid2, hmid3⟩ := hmid
  obtain ⟨d0, ds', rfl⟩ := List.exists_cons_of_ne_nil hds1
  obtain ⟨s0, sep', rfl⟩ := List.exists_cons_of_ne_nil hsep1
  obtain ⟨m0, mid', rfl⟩ := List.exists_cons_of_ne_nil hmid1
  have hline : (d0 :: ds') ++ (s0 :: sep') ++ (m0 :: mid') ++ ',' :: fsrest =
      (d0 :: ds') ++ ((s0 :: sep') ++ ((m0 :: mid') ++ ',' :: fsrest)) := by
    simp [List.append_assoc]
  have hsephead : ∀ c, ((s0 :: sep') ++ ((m0 :: mid') ++ ',' :: fsrest)).head? = some c →
      isDigitC c = false := by
    intro c hc
    simp only [List.cons_append, List.head?_cons, Option.some.injEq] at hc
    cases hc
    exact TR_notDigit s0 (hsep2 s0 (by simp))
  have htake := takeWhile_append_stop isDigitC (d0 :: ds')
    ((s0 :: sep') ++ ((m0 :: mid') ++ ',' :: fsrest)) hds2 hsephead
  have hmidhead : ∀ c, ((m0 :: mid') ++ ',' :: fsrest).head? = some c → isTR c = false := by
    intro c hc
    simp only [List.cons_append, List.head?_cons, Option.some.injEq] at hc
    cases hc
    exact hmid3 m0 rfl
  have htr : (((s0 :: sep') ++ ((m0 :: mid') ++ ',' :: fsrest)).takeWhile isTR = s0 :: sep') :=
    (takeWhile_append_stop isTR (s0 :: sep') _ hsep2 hmidhead).1
  have hmatch : matchHeaderAt ((d0 :: ds') ++ ((s0 :: sep') ++ ((m0 :: mid') ++ ',' :: fsrest))) =
      some ⟨d0 :: ds', m0 :: mid'⟩ := by
    rw [matchHeaderAt]
    simp only [htake.1, htake.2, htr]
    rw [if_neg (by simp : ¬(d0 :: ds' = []))]
    simp only [List.length_cons, tryTR]
    have hdrop : ((s0 :: sep') ++ ((m0 :: mid') ++ ',' :: fsrest)).drop (sep'.length + 1) =
        (m0 :: mid') ++ ',' :: fsrest := by
      have hlen : sep'.length + 1 = (s0 :: sep').length := by simp
      rw [hlen, List.drop_left]
    rw [hdrop, dotPlusComma_through (m0 :: mid') fsrest (by simp) hmid2]
  rw [hline]
  have hcons : (d0 :: ds') ++ ((s0 :: sep') ++ ((m0 :: mid') ++ ',' :: fsrest)) =
      d0 :: (ds' ++ ((s0 :: sep') ++ ((m0 :: mid') ++ ',' :: fsrest))) := by simp
  rw [hcons] at hmatch ⊢
  simp only [get_header]
  rw [hmatch]

theorem eolStrip_concat_comma (v : Chars) : eolStrip (v ++ [',']) = v := by
  rw [eolStrip, List.getLast?_concat]
  rw [if_neg (by decide : ¬(some ',' = some '\n'))]
  rw [if_pos (by decide : some ',' = some ',' ∨ some ',' = some '\r')]
  exact List.dropLast_concat ..

theorem dictInsert_fresh {α : Type} (l : List (Chars × α)) (k : Chars) (v : α)
    (h : ∀ p ∈ l, p.1 ≠ k) : dictInsert l k v = l ++ [(k, v)] := by
  induction l with
  | nil => rfl
  | cons q l' ih =>
    obtain ⟨k1, v1⟩ := q
    have hk := h (k1, v1) (by simp)
    simp only [dictInsert]
    rw [if_neg hk]
    rw [ih (fun p hp => h p (by simp [hp]))]
    simp

theorem dictLookup_insert {α : Type} (l : List (Chars × α)) (k : Chars) (v : α) :
    dictLookup (dictInsert l k v) k = some v := by
  induction l with
  | nil => simp [dictInsert, dictLookup]
  | cons q l' ih =>
    obtain ⟨k1, v1⟩ := q
    simp only [dictInsert]
    by_cases hk : k1 = k
    · rw [if_pos hk]
      simp [dictLookup]
    · rw [if_neg hk]
      simp only [dictLookup]
      rw [if_neg hk]
      exact ih

theorem foldl_dictInsert_nodup (l : List (Chars × Chars)) :
    ∀ acc, ((acc ++ l).map Prod.fst).Nodup →
      l.foldl (fun d p => dictInsert d p.1 p.2) acc = acc ++ l := by
  induction l with
  | nil => intro acc _; simp
  | cons p l' ih =>
    intro acc hnd
    simp only [List.foldl_cons]
    have hfresh : ∀ q ∈ acc, q.1 ≠ p.1 := by
      intro q hq hqe
      have : p.1 ∈ acc.map Prod.fst := by
        rw [← hqe]
        exact List.mem_map_of_mem Prod.fst hq
      have hmem : p.1 ∈ (p :: l').map Prod.fst := by simp
      rw [List.map_append, List.nodup_append] at hnd
      exact hnd.2.2 this hmem
    rw [dictInsert_fresh acc p.1 p.2 hfresh]
    have hre : acc ++ p :: l' = (acc ++ [(p.1, p.2)]) ++ l' := by simp
    rw [ih (acc ++ [(p.1, p.2)]) (by rw [← hre]; exact hnd)]
    simp

theorem dictify_nodup (l : List (Chars × Chars)) (h : (l.map Prod.fst).Nodup) :
    dictify l = l := by
  have := foldl_dictInsert_nodup l [] (by simpa using h)
  simpa [dictify] using this

theorem get_data_mkLine (ds sep msgid : Chars) (fs : List (Chars × Chars))
    (hds : ∀ c ∈ ds, isDigitC c = true)
    (hsep : ∀ c ∈ sep, isTR c = true)
    (hmid1 : msgid ≠ []) (hmid2 : ∀ c ∈ msgid, c ≠ '=')
    (hfs : ∀ p ∈ fs, goodCodeB p.1 = true ∧ goodValB p.2 = true)
    (hnd : (fs.map Prod.fst).Nodup) :
    get_data (mkLine ds sep msgid fs) = fs := by
  have hline : mkLine ds sep msgid fs =
      ds ++ (sep ++ (msgid ++ ',' :: (encodeFields fs ++ ['\r']))) := by
    simp [mkLine, List.append_assoc]
  rw [get_data, hline]
  rw [findAll_skip_digits ds hds]
  rw [findAll_skip_sep sep msgid _ hsep hmid1 hmid2]
  rw [findAll_skip_msgid msgid _ hmid2]
  rw [findAll_encode fs ['\r'] hfs]
  rw [findAll_single]
  rw [List.append_nil, List.map_map]
  have hmap : (fs.map ((fun p => (p.1, eolStrip p.2)) ∘ fun p => (p.1, p.2 ++ [',']))) = fs := by
    rw [show ((fun (p : Chars × Chars) => (p.1, eolStrip p.2)) ∘
        fun (p : Chars × Chars) => (p.1, p.2 ++ [','])) =
        fun (p : Chars × Chars) => (p.1, eolStrip (p.2 ++ [','])) from rfl]
    have : ∀ p ∈ fs, (p.1, eolStrip (p.2 ++ [','])) = p := by
      intro p _
      rw [eolStrip_concat_comma]
    rw [List.map_congr_left this]
    simp
  rw [hmap]
  exact dictify_nodup fs hnd

theorem update_roundtrip (st : Vaisala) (ds sep msgid : Chars)
    (fs : List (Chars × Chars)) (t : Nat)
    (hds : ds ≠ [] ∧ ∀ c ∈ ds, isDigitC c = true)
    (hsep : sep ≠ [] ∧ ∀ c ∈ sep, isTR c = true)
    (hmid : msgid ≠ [] ∧ (∀ c ∈ msgid, c ≠ ',' ∧ c ≠ '\n' ∧ c ≠ '=') ∧
      (∀ c, msgid.head? = some c → isTR c = false))
    (hfs : ∀ p ∈ fs, goodCodeB p.1 = true ∧ goodValB p.2 = true)
    (hnd : (fs.map Prod.fst).Nodup)
    (hst : strToNat ds = st.id_station) :
    update_data st (mkLine ds sep msgid fs) t =
      .ok { st with data := dictInsert st.data msgid ⟨fs, t⟩ } ∧
    dictLookup (dictInsert st.data msgid (⟨fs, t⟩ : Record)) msgid = some ⟨fs, t⟩ := by
  have hget : get_header (mkLine ds sep msgid fs) = some ⟨ds, msgid⟩ := by
    rw [mkLine]
    exact get_header_valid ds sep msgid _ hds hsep
      ⟨hmid.1, fun c hc => ⟨(hmid.2.1 c hc).1, (hmid.2.1 c hc).2.1⟩, hmid.2.2⟩
  constructor
  · rw [update_data, hget]
    simp only
    rw [if_pos hst]
    rw [get_data_mkLine ds sep msgid fs hds.2 hsep.2 hmid.1
      (fun c hc => (hmid.2.1 c hc).2.2) hfs hnd]
  · exact dictLookup_insert st.data msgid ⟨fs, t⟩

theorem findAll_keys (f : Nat) :
    ∀ s k v, (k, v) ∈ findAllF f s → goodCodeB k = true := by
  induction f with
  | zero =>
    intro s k v h
    simp [findAllF] at h
  | succ f ih =>
    intro s k v h
    match s with
    | [] => rw [findAllF_nil] at h; simp at h
    | [a] => rw [findAllF_single] at h; simp at h
    | c1 :: c2 :: r =>
      simp only [findAllF] at h
      by_cases hud : (isUp c1 && isLo c2) = true
      · rw [if_pos hud] at h
        cases htr : tryEqs r with
        | none =>
          rw [htr] at h
          exact ih (c2 :: r) k v h
        | some p =>
          rw [htr] at h
          dsimp only at h
          rcases List.mem_cons.mp h with heq | hmem
          · have hk : k = [c1, c2] := congrArg Prod.fst heq
            subst hk
            simpa [goodCodeB] using hud
          · exact ih p.2 k v hmem
      · rw [if_neg hud] at h
        exact ih (c2 :: r) k v h

theorem dictInsert_mem {α : Type} (l : List (Chars × α)) (k : Chars) (v : α) :
    ∀ k2 v2, (k2, v2) ∈ dictInsert l k v → (k2, v2) ∈ l ∨ k2 = k := by
  induction l with
  | nil =>
    intro k2 v2 h
    simp only [dictInsert, List.mem_singleton] at h
    exact .inr (congrArg Prod.fst h)
  | cons q l' ih =>
    intro k2 v2 h
    obtain ⟨k1, v1⟩ := q
    simp only [dictInsert] at h
    by_cases hk : k1 = k
    · rw [if_pos hk] at h
      rcases List.mem_cons.mp h with heq | hmem
      · exact .inr (congrArg Prod.fst heq)
      · exact .inl (by simp [hmem])
    · rw [if_neg hk] at h
      rcases List.mem_cons.mp h with heq | hmem
      · exact .inl (by simp [heq])
      · rcases ih k2 v2 hmem with h1 | h2
        · exact .inl (by simp [h1])
        · exact .inr h2

theorem foldl_dictInsert_keys (l : List (Chars × Chars)) :
    ∀ acc k v, (k, v) ∈ l.foldl (fun d p => dictInsert d p.1 p.2) acc →
      (k, v) ∈ acc ∨ ∃ q ∈ l, k = q.1 := by
  induction l with
  | nil =>
    intro acc k v h
    simp only [List.foldl_nil] at h
    exact .inl h
  | cons p l' ih =>
    intro acc k v h
    simp only [List.foldl_cons] at h
    rcases ih (dictInsert acc p.1 p.2) k v h with hmem | ⟨q, hq, hk⟩
    · rcases dictInsert_mem acc p.1 p.2 k v hmem with h1 | h2
      · exact .inl h1
      · exact .inr ⟨p, by simp, h2⟩
    · exact .inr ⟨q, by simp [hq], hk⟩

theorem get_data_keys (line k v : Chars) (h : (k, v) ∈ get_data line) :
    goodCodeB k = true := by
  rw [get_data, dictify] at h
  rcases foldl_dictInsert_keys _ [] k v h with hmem | ⟨q, hq, hk⟩
  · simp at hmem
  · obtain ⟨p, hp, heq⟩ := List.mem_map.mp hq
    obtain ⟨k2, v2⟩ := p
    have : k = k2 := by
      rw [hk, ← heq]
    subst this
    exact findAll_keys line.length line k v2 hp

theorem wind_direction_eval (st : Vaisala) (r : Record) (v : Chars) (x y : ℚ) (u : VUnit)
    (hu : u ∈ accepted_direction_units)
    (h1 : dictLookup st.data msg1 = some r)
    (hf : dictLookup r.fields dmCode = some v)
    (hp : parseFloat v.dropLast = some x)
    (hc : convert_units x uDegree u = some y) :
    wind_direction st u = .ok ⟨r.obs_time, y, u⟩ := by
  simp only [wind_direction, h1, hf, hp, hc]
  rw [if_pos hu]

theorem wind_speed_eval (st : Vaisala) (r : Record) (v : Chars) (x y : ℚ)
    (ch : Char) (uin u : VUnit)
    (hu : u ∈ accepted_speed_units)
    (h1 : dictLookup st.data msg1 = some r)
    (hf : dictLookup r.fields smCode = some v)
    (hp : parseFloat v.dropLast = some x)
    (hl : v.getLast? = some ch)
    (hs : vaisala_unit_dict "Sx" ch = some uin)
    (hc : convert_units x uin u = some y) :
    wind_speed st u = .ok ⟨r.obs_time, y, u⟩ := by
  simp only [wind_speed, h1, hf, hp, hl, hs, hc]
  rw [if_pos hu]

theorem temperature_eval (st : Vaisala) (r : Record) (v : Chars) (x y : ℚ)
    (ch : Char) (u : VUnit)
    (hu : u ∈ accepted_temperature_units)
    (h1 : dictLookup st.data msg2 = some r)
    (hf : dictLookup r.fields taCode = some v)
    (hp : parseFloat v.dropLast = some x)
    (hl : v.getLast? = some ch)
    (hc : convert_units x (if ch = 'C' then uCelsius else uFahrenheit) u = some y) :
    temperature st u = .ok ⟨r.obs_time, y, u⟩ := by
  simp only [temperature, h1, hf, hp, hl, hc]
  rw [if_pos hu]

theorem humidity_eval (st : Vaisala) (r : Record) (v : Chars) (x y : ℚ) (u : VUnit)
    (hu : u ∈ accepted_humidity_units)
    (h1 : dictLookup st.data msg2 = some r)
    (hf : dictLookup r.fields uaCode = some v)
    (hp : parseFloat v.dropLast = some x)
    (hc : convert_units x uPct u = some y) :
    humidity st u = .ok ⟨r.obs_time, y, u⟩ := by
  simp only [humidity, h1, hf, hp, hc]
  rw [if_pos hu]

/-- C1: for every valid sentence line (digit station id, `(T|R)` separator,
message id, comma-terminated `code=value` fields, trailing carriage return)
whose header station id equals the configured station id, `update_data`
followed by reading the stored record for the resulting message id yields a
fields mapping that is exactly the input code/value pairs, each value having
had its one trailing comma stripped — no extra and no missing keys. -/
theorem C1_update_get_roundtrip (st : Vaisala) (ds sep msgid : Chars)
    (fs : List (Chars × Chars)) (t : Nat)
    (hds : ds ≠ [] ∧ ∀ c ∈ ds, isDigitC c = true)
    (hsep : sep ≠ [] ∧ ∀ c ∈ sep, isTR c = true)
    (hmid : msgid ≠ [] ∧ (∀ c ∈ msgid, c ≠ ',' ∧ c ≠ '\n' ∧ c ≠ '=') ∧
      msgid.head? ≠ some 'T' ∧ msgid.head? ≠ some 'R')
    (hfs : ∀ p ∈ fs, goodCodeB p.1 = true ∧ goodValB p.2 = true)
    (hnd : (fs.map Prod.fst).Nodup)
    (hst : strToNat ds = st.id_station) :
    ∃ st2, update_data st (mkLine ds sep msgid fs) t = .ok st2 ∧
      dictLookup st2.data msgid = some ⟨fs, t⟩ := by
  have hmid3 : ∀ c, msgid.head? = some c → isTR c = false := by
    intro c hc
    cases htr : isTR c with
    | false => rfl
    | true =>
      rcases isTR_cases c htr with rfl | rfl
      · exact absurd hc hmid.2.2.1
      · exact absurd hc hmid.2.2.2
  obtain ⟨h1, h2⟩ := update_roundtrip st ds sep msgid fs t hds hsep
    ⟨hmid.1, hmid.2.1, hmid3⟩ hfs hnd hst
  exact ⟨_, h1, h2⟩

theorem C1_update_get_roundtrip_witness :
    ∃ st2, update_data vInit
        (mkLine ['0'] ['R'] ['1'] [(['D', 'm'], ['0', '4', '5', 'D'])]) 3 = .ok st2 ∧
      dictLookup st2.data ['1'] = some ⟨[(['D', 'm'], ['0', '4', '5', 'D'])], 3⟩ :=
  C1_update_get_roundtrip vInit ['0'] ['R'] ['1'] [(['D', 'm'], ['0', '4', '5', 'D'])] 3
    (by decide) (by decide) (by decide) (by decide) (by decide) (by decide)

/-- C2: the unit catalog maps pressure suffix `H` to 100 pascal, `P` to
pascal, `B` to bar, `M` to millimetres of mercury, `I` to exactly
25.399999705 millimetres of mercury, and wind suffix `K` to kilometres per
second (the legacy value — provably not kilometres per hour), `M` to metres
per second, `S` to miles per hour and `N` to knots. -/
theorem C2_unit_catalog :
    vaisala_unit_dict "Pa" 'H' = some (scaleU 100 uPa) ∧
    vaisala_unit_dict "Pa" 'P' = some uPa ∧
    vaisala_unit_dict "Pa" 'B' = some uBar ∧
    vaisala_unit_dict "Pa" 'M' = some uMmHg ∧
    vaisala_unit_dict "Pa" 'I' = some (scaleU (25399999705 / 1000000000) uMmHg) ∧
    vaisala_unit_dict "Sx" 'K' = some uKmps ∧ uKmps ≠ uKmph ∧
    vaisala_unit_dict "Sx" 'M' = some uMps ∧
    vaisala_unit_dict "Sx" 'S' = some uMph ∧
    vaisala_unit_dict "Sx" 'N' = some uKnot := by
  refine ⟨rfl, rfl, rfl, rfl, rfl, rfl, ?_, rfl, rfl, rfl⟩
  intro h
  have h2 : (1000 : ℚ) = 1000 / 3600 := congrArg VUnit.factor h
  norm_num at h2

/-- C3 counterexample: on the spec's example line `"0R0,Dm=045#,Sm=1.2M#,\r"`
the header's message id is `"0"`, so the record is stored under key `"0"`;
`wind_direction` and `wind_speed` read record `"1"` and fail with the
missing-record error instead of returning 45.0 and 1.2. -/
theorem C3_counterexample :
    update_data vInit ("0R0,Dm=045#,Sm=1.2M#,\r".data) 0 =
      .ok (afterUpd ("0R0,Dm=045#,Sm=1.2M#,\r".data)) ∧
    dictLookup (afterUpd ("0R0,Dm=045#,Sm=1.2M#,\r".data)).data ['0'] =
      some ⟨[(['D', 'm'], "045#".data), (['S', 'm'], "1.2M#".data)], 0⟩ ∧
    wind_direction (afterUpd ("0R0,Dm=045#,Sm=1.2M#,\r".data)) uDegree =
      .error .recordNotAvailable ∧
    wind_speed (afterUpd ("0R0,Dm=045#,Sm=1.2M#,\r".data)) uMps =
      .error .recordNotAvailable := by
  decide

/-- C3 (amended): for the input line `"0R1,Dm=045#,Sm=1.2M,\r"` (message id
1, so that the wind accessors find the record, and a proper unit suffix on
`Sm` so that the magnitude parses) with configured station id 0, one update
makes `wind_direction` in degrees return 45.0 and `wind_speed` in metres
per second return 1.2, both carrying the update call's clock value. -/
theorem C3_amended_example (t : Nat) :
    ∃ st2, update_data vInit ("0R1,Dm=045#,Sm=1.2M,\r".data) t = .ok st2 ∧
      wind_direction st2 uDegree = .ok ⟨t, 45, uDegree⟩ ∧
      wind_speed st2 uMps = .ok ⟨t, 6 / 5, uMps⟩ := by
  refine ⟨⟨0, [(msg1, ⟨[(dmCode, "045#".data), (smCode, "1.2M".data)], t⟩)]⟩, rfl, ?_, ?_⟩
  · exact wind_direction_eval
      ⟨0, [(msg1, ⟨[(dmCode, "045#".data), (smCode, "1.2M".data)], t⟩)]⟩
      ⟨[(dmCode, "045#".data), (smCode, "1.2M".data)], t⟩
      ("045#".data) ((45 : ℕ) : ℚ) 45 uDegree (by decide) rfl rfl rfl
      (by norm_num [convert_units, uDegree])
  · exact wind_speed_eval
      ⟨0, [(msg1, ⟨[(dmCode, "045#".data), (smCode, "1.2M".data)], t⟩)]⟩
      ⟨[(dmCode, "045#".data), (smCode, "1.2M".data)], t⟩
      ("1.2M".data) (((1 : ℕ) : ℚ) + ((2 : ℕ) : ℚ) / 10 ^ 1) (6 / 5) 'M' uMps uMps
      (by decide) rfl rfl rfl rfl rfl
      (by norm_num [convert_units, uMps])

/-- C4 counterexample: the source takes no caller-supplied timestamp — it
reads `datetime.utcnow()` inside `update_data` (here the explicit clock
input).  Two calls on the same line whose internal clock readings differ
produce different stored records, refuting "the stored timestamp equals a
timestamp supplied by the caller as an argument, and the core never
computes a timestamp internally". -/
theorem C4_counterexample :
    update_data vInit ("0R1,Dm=1D,\r".data) 0 ≠
      update_data vInit ("0R1,Dm=1D,\r".data) 1 := by
  decide

/-- C4 (amended): the observed time stored in the resulting record equals
the `datetime.utcnow()` value read during that call (the explicit clock
input of the embedding); the code computes this timestamp internally rather
than receiving it from the caller, and the update is a pure function of the
line and that clock reading. -/
theorem C4_amended_obs_time (st : Vaisala) (line : Chars) (t : Nat) (h : HeaderT)
    (hh : get_header line = some h) (hst : strToNat h.id_station = st.id_station) :
    ∃ st2, update_data st line t = .ok st2 ∧
      dictLookup st2.data h.id_msg = some ⟨get_data line, t⟩ := by
  simp only [update_data, hh]
  rw [if_pos hst]
  exact ⟨_, rfl, dictLookup_insert st.data h.id_msg ⟨get_data line, t⟩⟩

theorem C4_amended_obs_time_witness :
    ∃ st2, update_data vInit ("0R1,Ta=5.0C,\r".data) 9 = .ok st2 ∧
      dictLookup st2.data ['1'] = some ⟨get_data ("0R1,Ta=5.0C,\r".data), 9⟩ :=
  C4_amended_obs_time vInit ("0R1,Ta=5.0C,\r".data) 9 ⟨['0'], ['1']⟩ (by decide) (by decide)

/-- C5: for every line whose header parses and whose station id differs
from the configured one, `update_data` returns without error and leaves the
record store (the whole state) unchanged. -/
theorem C5_mismatch_noop (st : Vaisala) (line : Chars) (t : Nat) (h : HeaderT)
    (hh : get_header line = some h) (hst : strToNat h.id_station ≠ st.id_station) :
    update_data st line t = .ok st := by
  simp only [update_data, hh]
  rw [if_neg hst]

theorem C5_mismatch_noop_witness :
    update_data vInit ("5R1,Dm=045D,\r".data) 3 = .ok vInit :=
  C5_mismatch_noop vInit ("5R1,Dm=045D,\r".data) 3 ⟨['5'], ['1']⟩ (by decide) (by decide)

/-- C6: each of the five accessors, called with an output unit outside its
accepted set, fails with the unsupported-output-unit error whatever the
record store holds — the check precedes any record lookup, so it fires even
on an empty store. -/
theorem C6_unit_validation (st : Vaisala) (u : VUnit) :
    (u ∉ accepted_direction_units → wind_direction st u = .error .unsupportedOutputUnit) ∧
    (u ∉ accepted_speed_units → wind_speed st u = .error .unsupportedOutputUnit) ∧
    (u ∉ accepted_pressure_units → pressure st u = .error .unsupportedOutputUnit) ∧
    (u ∉ accepted_humidity_units → humidity st u = .error .unsupportedOutputUnit) ∧
    (u ∉ accepted_temperature_units → temperature st u = .error .unsupportedOutputUnit) := by
  refine ⟨fun h => ?_, fun h => ?_, fun h => ?_, fun h => ?_, fun h => ?_⟩
  · simp only [wind_direction]
    rw [if_neg h]
  · simp only [wind_speed]
    rw [if_neg h]
  · simp only [pressure]
    rw [if_neg h]
  · simp only [humidity]
    rw [if_neg h]
  · simp only [temperature]
    rw [if_neg h]

theorem C6_unit_validation_witness :
    wind_direction vInit ⟨7, "zz"⟩ = .error .unsupportedOutputUnit ∧
    wind_speed vInit ⟨7, "zz"⟩ = .error .unsupportedOutputUnit ∧
    pressure vInit ⟨7, "zz"⟩ = .error .unsupportedOutputUnit ∧
    humidity vInit ⟨7, "zz"⟩ = .error .unsupportedOutputUnit ∧
    temperature vInit ⟨7, "zz"⟩ = .error .unsupportedOutputUnit := by
  obtain ⟨h1, h2, h3, h4, h5⟩ := C6_unit_validation vInit ⟨7, "zz"⟩
  exact ⟨h1 (by simp [accepted_direction_units, uDegree]),
    h2 (by simp [accepted_speed_units, uMps, uKmps, uMph, uKnot]),
    h3 (by simp [accepted_pressure_units, uPa, uBar, uMmHg, scaleU]),
    h4 (by simp [accepted_humidity_units, uPct]),
    h5 (by simp [accepted_temperature_units, uCelsius, uFahrenheit])⟩

/-- C7 counterexample: the stored pressure value `"xyzQ"` has the unknown
suffix `Q`, but `float(value[:-1])` is evaluated before the suffix lookup,
so the accessor fails with the float-parse error, not the unknown-suffix
error — refuting the claim for every stored value with a bad suffix. -/
theorem C7_counterexample :
    vaisala_unit_dict "Pa" 'Q' = none ∧
    pressure ⟨0, [(['2'], ⟨[(['P', 'a'], "xyzQ".data)], 5⟩)]⟩ uPa = .error .malformedValue ∧
    pressure ⟨0, [(['2'], ⟨[(['P', 'a'], "xyzQ".data)], 5⟩)]⟩ uPa ≠ .error .unknownUnitSuffix := by
  decide

/-- C7 (amended): for every stored field value whose numeric prefix parses
as a float and whose trailing suffix is absent from the relevant unit
table, `pressure` and `wind_speed` fail with the unknown-unit-suffix error
— no default unit is ever substituted (when the prefix also fails to parse
the accessor still fails, but with the float-parse error first). -/
theorem C7_amended_unknown_suffix (st : Vaisala) (r1 r2 : Record) (v1 v2 : Chars)
    (q1 q2 : ℚ) (c1 c2 : Char)
    (h1 : dictLookup st.data msg1 = some r1)
    (hf1 : dictLookup r1.fields smCode = some v1)
    (hp1 : parseFloat v1.dropLast = some q1)
    (hl1 : v1.getLast? = some c1)
    (hs1 : vaisala_unit_dict "Sx" c1 = none)
    (h2 : dictLookup st.data msg2 = some r2)
    (hf2 : dictLookup r2.fields paCode = some v2)
    (hp2 : parseFloat v2.dropLast = some q2)
    (hl2 : v2.getLast? = some c2)
    (hs2 : vaisala_unit_dict "Pa" c2 = none) :
    wind_speed st uMps = .error .unknownUnitSuffix ∧
    pressure st uPa = .error .unknownUnitSuffix := by
  constructor
  · simp only [wind_speed, h1, hf1, hp1, hl1, hs1]
    rw [if_pos (by decide : uMps ∈ accepted_speed_units)]
  · simp only [pressure, h2, hf2, hp2, hl2, hs2]
    rw [if_pos (by decide : uPa ∈ accepted_pressure_units)]

theorem C7_amended_unknown_suffix_witness :
    wind_speed ⟨0, [(['1'], ⟨[(['S', 'm'], "3.0Q".data)], 4⟩),
        (['2'], ⟨[(['P', 'a'], "55.2Q".data)], 4⟩)]⟩ uMps = .error .unknownUnitSuffix ∧
    pressure ⟨0, [(['1'], ⟨[(['S', 'm'], "3.0Q".data)], 4⟩),
        (['2'], ⟨[(['P', 'a'], "55.2Q".data)], 4⟩)]⟩ uPa = .error .unknownUnitSuffix :=
  C7_amended_unknown_suffix
    ⟨0, [(['1'], ⟨[(['S', 'm'], "3.0Q".data)], 4⟩),
        (['2'], ⟨[(['P', 'a'], "55.2Q".data)], 4⟩)]⟩
    ⟨[(['S', 'm'], "3.0Q".data)], 4⟩ ⟨[(['P', 'a'], "55.2Q".data)], 4⟩
    ("3.0Q".data) ("55.2Q".data)
    (((3 : ℕ) : ℚ) + ((0 : ℕ) : ℚ) / 10 ^ 1) (((55 : ℕ) : ℚ) + ((2 : ℕ) : ℚ) / 10 ^ 1)
    'Q' 'Q' rfl rfl rfl rfl rfl rfl rfl rfl rfl rfl

/-- C10 counterexample: the token `ABc=5` has a three-letter code, yet
`get_data` produces the entry `("Bc", "5")` from it — the match keys on the
last two characters before the `=` — refuting "a token whose code has any
other shape contributes no entry". -/
theorem C10_counterexample :
    get_data ("0R1,ABc=5,\r".data) = [(['B', 'c'], ['5'])] := by
  decide

/-- C10 (amended): every key in the mapping returned by `get_data` is
exactly one uppercase letter followed by one lowercase letter (a token with
a longer code contributes the entry keyed by the two characters preceding
its `=` when they have that shape), and tokens shaped like `DM=5` or `dm=6`
contribute no entry and are skipped silently. -/
theorem C10_amended_key_shape (line k v : Chars) (h : (k, v) ∈ get_data line) :
    goodCodeB k = true ∧ get_data ("0R1,DM=5,dm=6,\r".data) = [] :=
  ⟨get_data_keys line k v h, by decide⟩

theorem C10_amended_key_shape_witness :
    goodCodeB ['D', 'm'] = true ∧ get_data ("0R1,DM=5,dm=6,\r".data) = [] :=
  C10_amended_key_shape ("0R1,Dm=5,\r".data) ['D', 'm'] ['5'] (by decide)

/-- C8: the dew-point computation is the Arden Buck approximation with
`b = 18.678`, `c = 257.14`, `d = 235.5`,
`gamma(T,RH) = log (RH/100 * exp ((b - T/d) * (T/(c + T))))` and
`Tdp = c * gamma / (b - gamma)` (the definitions `gamma_m` and `Tdp`); on a
record with temperature 20 Celsius and humidity 50 percent it returns
`Tdp 20 50`, which lies within 0.1 degree of 9.3 Celsius. -/
theorem C8_dew_point_buck :
    ∃ m, dew_point (afterUpd ("0R2,Ta=20.0C,Ua=50.0P,\r".data)) uCelsius =
        .ok ⟨0, m, uCelsius⟩ ∧
      m = Tdp 20 50 ∧ |Tdp 20 50 - 9.3| < 1 / 10 := by
  refine ⟨Tdp 20 50, ?_, rfl, ?_⟩
  · have hrec : dictLookup (afterUpd ("0R2,Ta=20.0C,Ua=50.0P,\r".data)).data msg2 =
        some ⟨[(taCode, "20.0C".data), (uaCode, "50.0P".data)], 0⟩ := rfl
    have htemp : temperature (afterUpd ("0R2,Ta=20.0C,Ua=50.0P,\r".data)) uCelsius =
        .ok ⟨0, 20, uCelsius⟩ :=
      temperature_eval _ ⟨[(taCode, "20.0C".data), (uaCode, "50.0P".data)], 0⟩
        ("20.0C".data) (((20 : ℕ) : ℚ) + ((0 : ℕ) : ℚ) / 10 ^ 1) 20 'C' uCelsius
        (by decide) rfl rfl rfl rfl (by norm_num [convert_units, uCelsius])
    have hhum : humidity (afterUpd ("0R2,Ta=20.0C,Ua=50.0P,\r".data)) uPct =
        .ok ⟨0, 50, uPct⟩ :=
      humidity_eval _ ⟨[(taCode, "20.0C".data), (uaCode, "50.0P".data)], 0⟩
        ("50.0P".data) (((50 : ℕ) : ℚ) + ((0 : ℕ) : ℚ) / 10 ^ 1) 50 uPct
        (by decide) rfl rfl rfl (by norm_num [convert_units, uPct])
    unfold dew_point
    rw [hrec]
    dsimp only
    rw [htemp]
    dsimp only
    rw [hhum]
    dsimp only
    simp [convertR, uCelsius]
  · have hg : gamma_m (20 : ℝ) 50 =
        ((18.678 : ℝ) - 20 / 235.5) * (20 / (257.14 + 20)) - Real.log 2 := by
      rw [gamma_m]
      rw [show ((50 : ℝ) / 100) = 1 / 2 by norm_num]
      rw [Real.log_mul (by norm_num) (Real.exp_ne_zero _)]
      rw [Real.log_exp]
      rw [show Real.log ((1 : ℝ) / 2) = -Real.log 2 by rw [one_div, Real.log_inv]]
      ring
    have hA : ((18.678 : ℝ) - 20 / 235.5) * (20 / (257.14 + 20)) =
        8757338 / 6526647 := by norm_num
    have hlt : Real.log 2 < 0.6931471808 := Real.log_two_lt_d9
    have hgt : (0.6931471803 : ℝ) < Real.log 2 := Real.log_two_gt_d9
    have hglo : (0.6486 : ℝ) < gamma_m 20 50 := by
      rw [hg, hA]
      linarith
    have hghi : gamma_m 20 50 < (0.6487 : ℝ) := by
      rw [hg, hA]
      linarith
    have hden : (0 : ℝ) < 18.678 - gamma_m 20 50 := by linarith
    have h1 : (9.2 : ℝ) < 257.14 * gamma_m 20 50 / (18.678 - gamma_m 20 50) := by
      rw [lt_div_iff₀ hden]
      nlinarith [hglo]
    have h2 : 257.14 * gamma_m 20 50 / (18.678 - gamma_m 20 50) < (9.4 : ℝ) := by
      rw [div_lt_iff₀ hden]
      nlinarith [hghi]
    rw [Tdp, abs_lt]
    constructor
    · linarith
    · linarith

/-- C9: at humidity 0 percent the source raises no error at all — there is
no domain check in `dew_point`, so it returns an ok value; its magnitude is
the junk propagation of the logarithm of zero (in the IEEE semantics of
numpy, `np.log(0)` is `-inf` and the quotient is NaN), never a DomainError. -/
theorem C9_rh_zero_no_domain_error :
    ∃ m, dew_point (afterUpd ("0R2,Ta=20.0C,Ua=0.0P,\r".data)) uCelsius =
      .ok ⟨0, m, uCelsius⟩ := by
  have hrec : dictLookup (afterUpd ("0R2,Ta=20.0C,Ua=0.0P,\r".data)).data msg2 =
      some ⟨[(taCode, "20.0C".data), (uaCode, "0.0P".data)], 0⟩ := rfl
  have htemp : temperature (afterUpd ("0R2,Ta=20.0C,Ua=0.0P,\r".data)) uCelsius =
      .ok ⟨0, 20, uCelsius⟩ :=
    temperature_eval _ ⟨[(taCode, "20.0C".data), (uaCode, "0.0P".data)], 0⟩
      ("20.0C".data) (((20 : ℕ) : ℚ) + ((0 : ℕ) : ℚ) / 10 ^ 1) 20 'C' uCelsius
      (by decide) rfl rfl rfl rfl (by norm_num [convert_units, uCelsius])
  have hhum : humidity (afterUpd ("0R2,Ta=20.0C,Ua=0.0P,\r".data)) uPct =
      .ok ⟨0, 0, uPct⟩ :=
    humidity_eval _ ⟨[(taCode, "20.0C".data), (uaCode, "0.0P".data)], 0⟩
      ("0.0P".data) (((0 : ℕ) : ℚ) + ((0 : ℕ) : ℚ) / 10 ^ 1) 0 uPct
      (by decide) rfl rfl rfl (by norm_num [convert_units, uPct])
  refine ⟨Tdp 20 0, ?_⟩
  unfold dew_point
  rw [hrec]
  dsimp only
  rw [htemp]
  dsimp only
  rw [hhum]
  dsimp only
  simp [convertR, uCelsius]
